import Mathlib

/-!
# Verification of the KWin compositing core against its specification

This development gives a shallow embedding, in Lean 4, of the parts of the
KWin frame-compositing core that the specification talks about:

* the render backend's damage history and buffer-age bookkeeping
  (`src/platformsupport/scenes/opengl/openglbackend.cpp`, plus the per-output
  copies in the EGL gbm and wayland backends),
* the occlusion-culling pass of the optimized paint path
  (`Scene::paintSimpleScreen` in `src/scene.cpp`),
* the `Item` tree with its cached bounding rectangles (`src/item.cpp`),
* the DRM output presentation state machine (`DrmOutput` in `drm_output.cpp`).

`QRegion` is modelled extensionally as the finite set of integer pixels it
covers (`Finset (ℤ × ℤ)`); `QRegion` equality in Qt is equality of the covered
point set, and all region operators used by the embedded code (`|=`, `-`, `&`,
`isEmpty`) are point-set operations, so this model is exact.
-/

/-- A `QRegion`, modelled as the finite set of pixels it covers. -/
abbrev Region : Type := Finset (ℤ × ℤ)

namespace OpenGLBackend

/-- `OpenGLBackend::addToDamageHistory` (openglbackend.cpp):
```
if (m_damageHistory.count() > 10)
    m_damageHistory.removeLast();
m_damageHistory.prepend(region);
```
The same trim-and-prepend code is duplicated per output in
`EglGbmBackend::endFrame` (egl_gbm_backend.cpp) and
`EglWaylandBackend::endFrame` (egl_wayland_backend.cpp). -/
def addToDamageHistory (damageHistory : List Region) (region : Region) : List Region :=
  let trimmed := if damageHistory.length > 10 then damageHistory.dropLast else damageHistory
  region :: trimmed

/-- `OpenGLBackend::accumulatedDamageHistory` (openglbackend.cpp):
```
QRegion region;
if (bufferAge > 0 && bufferAge <= m_damageHistory.count()) {
    for (int i = 0; i < bufferAge - 1; i++)
        region |= m_damageHistory[i];
} else {
    const QSize &s = screens()->size();
    region = QRegion(0, 0, s.width(), s.height());
}
return region;
```
`QRegion(0, 0, s.width(), s.height())` is passed in as `fullRegion`.  The same
accumulation loop appears per output in `EglWaylandBackend::beginFrame` and
`EglGbmBackend::prepareRenderingForOutput` (with the output geometry as the
fallback region). -/
def accumulatedDamageHistory (damageHistory : List Region) (fullRegion : Region)
    (bufferAge : Int) : Region :=
  if bufferAge > 0 ∧ bufferAge ≤ damageHistory.length then
    (List.range (bufferAge - 1).toNat).foldl
      (fun region i => region ∪ damageHistory.getD i ∅) ∅
  else
    fullRegion

/-- The spec-side contract of `accumulatedDamageHistory`, written from the
spec's words for the refinement claim C2: "if `0 < age ≤ history length`,
returns the union of the last `age-1` recorded damage regions (the first
`age-1` entries of the prepend-ordered history); any other age returns the
full output rectangle". -/
def accumulatedDamageHistorySpec (damageHistory : List Region) (fullRegion : Region)
    (age : Int) : Region :=
  if 0 < age ∧ age ≤ damageHistory.length then
    (damageHistory.take (age - 1).toNat).foldl (· ∪ ·) ∅
  else
    fullRegion

/-- Folding the indexed accumulation loop over `range n` is the same as folding
union over the prefix `take n`, as long as `n` stays inside the list. -/
theorem foldl_range_getD_eq_foldl_take (damageHistory : List Region) (n : ℕ)
    (hn : n ≤ damageHistory.length) (acc : Region) :
    (List.range n).foldl (fun region i => region ∪ damageHistory.getD i ∅) acc =
      (damageHistory.take n).foldl (· ∪ ·) acc := by
  induction n generalizing acc with
  | zero => simp
  | succ m ih =>
      have hm : m < damageHistory.length := Nat.lt_of_succ_le hn
      rw [List.range_succ, List.foldl_append, ih (Nat.le_of_lt hm),
        List.take_succ, List.foldl_append]
      simp [List.getD, List.getElem?_eq_getElem hm]

/-- C2: For every damage-history list and every integer age, the code's
`accumulatedDamageHistory` agrees with the spec's contract: for
`0 < age ≤ history length` it returns the union of the first `age-1` entries
of the prepend-ordered history, and for any other age it returns the full
output rectangle. -/
theorem accumulatedDamageHistory_eq_spec (damageHistory : List Region)
    (fullRegion : Region) (age : Int) :
    accumulatedDamageHistory damageHistory fullRegion age =
      accumulatedDamageHistorySpec damageHistory fullRegion age := by
  unfold accumulatedDamageHistory accumulatedDamageHistorySpec
  by_cases h : 0 < age ∧ age ≤ damageHistory.length
  · rw [if_pos ⟨h.1, h.2⟩, if_pos h]
    apply foldl_range_getD_eq_foldl_take
    omega
  · rw [if_neg, if_neg h]
    exact fun hc => h ⟨hc.1, hc.2⟩

/-- C8 counterexample: with an *empty* damage history,
`accumulatedDamageHistory(1)` does not return the empty region — it falls into
the else branch and returns the full output rectangle (here a 1×1 output). -/
theorem accumulatedDamageHistory_one_empty_history_not_empty :
    accumulatedDamageHistory [] {((0 : ℤ), (0 : ℤ))} 1 ≠ (∅ : Region) := by
  decide

/-- C8 (amended): whenever the damage history is non-empty,
`accumulatedDamageHistory(1)` yields the empty region (age 1 replays the first
`1 - 1 = 0` history entries); with an empty history it instead returns the
full output rectangle. -/
theorem accumulatedDamageHistory_one (damageHistory : List Region)
    (fullRegion : Region) (h : damageHistory ≠ []) :
    accumulatedDamageHistory damageHistory fullRegion 1 = (∅ : Region) := by
  have hlen : (1 : Int) ≤ damageHistory.length := by
    have := List.length_pos.mpr h
    omega
  simp [accumulatedDamageHistory, hlen]

/-- Witness for `accumulatedDamageHistory_one` at a concrete input. -/
theorem accumulatedDamageHistory_one_witness :
    accumulatedDamageHistory [(∅ : Region)] {((0 : ℤ), (0 : ℤ))} 1 = (∅ : Region) :=
  accumulatedDamageHistory_one [(∅ : Region)] {((0 : ℤ), (0 : ℤ))} (by decide)

/-- C7 counterexample: eleven successive recordings starting from an empty
history leave the damage-history list with 11 entries — the trim in
`addToDamageHistory` only fires once the count already *exceeds* 10, so the
list is not capped at 10 entries. -/
theorem addToDamageHistory_eleven_entries :
    ((List.replicate 11 (∅ : Region)).foldl addToDamageHistory []).length = 11 := by
  decide

/-- C7 (amended): after every call to `addToDamageHistory` the damage-history
list contains at most 11 entries (the oldest entry is dropped first, but only
once more than 10 entries are already present, so the list grows to 11 and
stays there). -/
theorem addToDamageHistory_bounded (damageHistory : List Region) (region : Region)
    (h : damageHistory.length ≤ 11) :
    (addToDamageHistory damageHistory region).length ≤ 11 ∧
      (10 < damageHistory.length →
        addToDamageHistory damageHistory region = region :: damageHistory.dropLast) := by
  constructor
  · simp only [addToDamageHistory, List.length_cons]
    split
    · simp only [List.length_dropLast]
      omega
    · rename_i hle
      simp only [Nat.not_lt] at hle
      omega
  · intro hl
    simp [addToDamageHistory, hl]

/-- Witness for `addToDamageHistory_bounded` at a concrete input. -/
theorem addToDamageHistory_bounded_witness :
    (addToDamageHistory (List.replicate 11 (∅ : Region)) ∅).length ≤ 11 ∧
      (10 < (List.replicate 11 (∅ : Region)).length →
        addToDamageHistory (List.replicate 11 (∅ : Region)) ∅ =
          ∅ :: (List.replicate 11 (∅ : Region)).dropLast) :=
  addToDamageHistory_bounded (List.replicate 11 (∅ : Region)) ∅ (by decide)

end OpenGLBackend

namespace EglGbmLegacy

/-- One entry of `EglGbmBackend::m_outputs` in the legacy gbm backend, keeping
the field `endRenderingFrame`/`present` touch: the EGL buffer age. -/
structure Output where
  bufferAge : Int
deriving DecidableEq, Repr

/-- The legacy `EglGbmBackend` state used by `endRenderingFrame`: the per-output
list, the damage history inherited from `OpenGLBackend`, and whether the EGL
implementation supports `EGL_EXT_buffer_age`. -/
structure BackendState where
  outputs : List Output
  damageHistory : List Region
  supportsBufferAge : Bool
deriving DecidableEq

/-- `EglGbmBackend::present()` (legacy gbm backend): swaps buffers and presents
on every output, then queries `EGL_BUFFER_AGE_EXT` for the new back buffer's
age.  The ages reported by the hardware are an external input, passed here as
`newAges` (one per output). -/
def present (newAges : List Int) (st : BackendState) : BackendState :=
  if st.supportsBufferAge then
    { st with outputs := List.zipWith (fun o a => { o with bufferAge := a }) st.outputs newAges }
  else
    st

/-- `EglGbmBackend::endRenderingFrame` (legacy gbm backend):
```
if (damagedRegion.isEmpty()) {
    if (!renderedRegion.isEmpty())
        glFlush();
    for (auto &o: m_outputs) {
        o.bufferAge = 1;
    }
    return;
}
present();
if (supportsBufferAge())
    addToDamageHistory(damagedRegion);
```
Returns whether the frame was presented, together with the new state.
(`glFlush` does not change any modelled state.) -/
def endRenderingFrame (renderedRegion damagedRegion : Region) (newAges : List Int)
    (st : BackendState) : Bool × BackendState :=
  if damagedRegion = ∅ then
    (false, { st with outputs := st.outputs.map (fun o => { o with bufferAge := 1 }) })
  else
    let st' := present newAges st
    (true,
      if st.supportsBufferAge then
        { st' with damageHistory := OpenGLBackend.addToDamageHistory st'.damageHistory damagedRegion }
      else st')

/-- C9: ending a frame whose damaged region is empty does not present the
rendered buffer, sets every output's buffer age to 1 (so the repaired content
is treated as current), and leaves the damage history unmodified. -/
theorem endRenderingFrame_empty_damage (renderedRegion damagedRegion : Region)
    (newAges : List Int) (st : BackendState) (hd : damagedRegion = ∅) :
    (endRenderingFrame renderedRegion damagedRegion newAges st).1 = false ∧
      (∀ o ∈ (endRenderingFrame renderedRegion damagedRegion newAges st).2.outputs,
        o.bufferAge = 1) ∧
      (endRenderingFrame renderedRegion damagedRegion newAges st).2.damageHistory =
        st.damageHistory := by
  subst hd
  have h : endRenderingFrame renderedRegion ∅ newAges st =
      (false, { st with outputs := st.outputs.map (fun o => { o with bufferAge := 1 }) }) := by
    unfold endRenderingFrame
    exact if_pos rfl
  rw [h]
  refine ⟨rfl, ?_, rfl⟩
  intro o ho
  obtain ⟨o', _, rfl⟩ := List.mem_map.mp ho
  rfl

/-- Witness for `endRenderingFrame_empty_damage` at a concrete input. -/
theorem endRenderingFrame_empty_damage_witness :
    (endRenderingFrame {((0 : ℤ), (0 : ℤ))} ∅ [3] ⟨[⟨5⟩], [∅], true⟩).1 = false ∧
      (∀ o ∈ (endRenderingFrame {((0 : ℤ), (0 : ℤ))} ∅ [3] ⟨[⟨5⟩], [∅], true⟩).2.outputs,
        o.bufferAge = 1) ∧
      (endRenderingFrame {((0 : ℤ), (0 : ℤ))} ∅ [3]
        ⟨[⟨5⟩], [∅], true⟩).2.damageHistory = [∅] :=
  endRenderingFrame_empty_damage {((0 : ℤ), (0 : ℤ))} ∅ [3] ⟨[⟨5⟩], [∅], true⟩ rfl

end EglGbmLegacy

namespace Scene

/-- One `Scene::Phase2Data` entry as scheduled by the bottom-to-top loop of
`Scene::paintSimpleScreen` (scene.cpp): the accumulated `data.paint` region,
the opaque clip region `data.clip`, and whether `data.mask` carries
`PAINT_WINDOW_TRANSLUCENT`.  (The window pointer and quads do not take part in
the region computation.) -/
structure Phase2Data where
  region : Region
  clip : Region
  translucent : Bool
deriving DecidableEq

/-- One iteration of the top-to-bottom occlusion loop of
`Scene::paintSimpleScreen` (scene.cpp, lines 383–408), acting on the running
state `(allclips, upperTranslucentDamage)`:
```
if (fullRepaint) { data->region = displayRegion; }
else { data->region |= upperTranslucentDamage; }
data->region -= allclips;
if (!data->clip.isEmpty() && !(data->mask & PAINT_WINDOW_TRANSLUCENT)) {
    allclips |= data->clip;
    if (!fullRepaint) { upperTranslucentDamage |= data->region - data->clip; }
} else if (!fullRepaint) {
    upperTranslucentDamage |= data->region;
}
``` -/
def occlusionStep (fullRepaint : Bool) (displayRegion : Region)
    (st : Region × Region) (data : Phase2Data) : Phase2Data × (Region × Region) :=
  let allclips := st.1
  let upperTranslucentDamage := st.2
  let r0 := if fullRepaint then displayRegion else data.region ∪ upperTranslucentDamage
  let r1 := r0 \ allclips
  if data.clip ≠ ∅ ∧ data.translucent = false then
    ({ data with region := r1 },
      (allclips ∪ data.clip,
        if fullRepaint then upperTranslucentDamage
        else upperTranslucentDamage ∪ (r1 \ data.clip)))
  else
    ({ data with region := r1 },
      (allclips,
        if fullRepaint then upperTranslucentDamage
        else upperTranslucentDamage ∪ r1))

/-- The occlusion-culling pass of `Scene::paintSimpleScreen`: the loop
`for (int i = phase2data.count() - 1; i >= 0; --i)`.  The list is ordered
bottom-to-top, so the recursion processes the suffix (the windows *above*)
first, threading `(allclips, upperTranslucentDamage)` downward. -/
def occlusionPass (fullRepaint : Bool) (displayRegion : Region) :
    List Phase2Data → Region × Region → List Phase2Data × (Region × Region)
  | [], st => ([], st)
  | data :: rest, st =>
      let (rest', st') := occlusionPass fullRepaint displayRegion rest st
      let (data', st'') := occlusionStep fullRepaint displayRegion st' data
      (data' :: rest', st'')

/-- The region bookkeeping of `Scene::paintSimpleScreen` from the end of the
bottom-to-top pre-paint loop through the background fill (scene.cpp,
lines 360–422), in the `!(orig_mask & PAINT_SCREEN_BACKGROUND_FIRST)` case:
`dirtyArea` accumulates the incoming `region` argument and every scheduled
window's `data.paint`, then the `repaint_region`; `fullRepaint` compares it
with the display rectangle (`Scene::extendPaintRegion` is the base-class
no-op); the occlusion pass starts from `(allclips, upperTranslucentDamage) =
(∅, repaint_region)`; the background is filled with `dirtyArea - allclips`.
Returns the per-window paint regions computed by the occlusion pass
(bottom-to-top) and the background fill region. -/
def simpleScreenRegions (regionArg repaintRegion displayRegion : Region)
    (phase2data : List Phase2Data) : List Region × Region :=
  let dirtyArea0 := phase2data.foldl (fun acc d => acc ∪ d.region) regionArg
  let dirtyArea := dirtyArea0 ∪ repaintRegion
  let fullRepaint : Bool := decide (dirtyArea = displayRegion)
  let res := occlusionPass fullRepaint displayRegion phase2data (∅, repaintRegion)
  let allclips := res.2.1
  (res.1.map Phase2Data.region, dirtyArea \ allclips)

/-- Splitting the occlusion loop at a list split: the suffix (upper windows)
is processed first, and the final state threads through the prefix. -/
theorem occlusionPass_append (f : Bool) (disp : Region) (l₁ l₂ : List Phase2Data)
    (st : Region × Region) :
    occlusionPass f disp (l₁ ++ l₂) st =
      ((occlusionPass f disp l₁ (occlusionPass f disp l₂ st).2).1 ++
          (occlusionPass f disp l₂ st).1,
        (occlusionPass f disp l₁ (occlusionPass f disp l₂ st).2).2) := by
  induction l₁ with
  | nil => simp [occlusionPass]
  | cons d rest ih => simp [occlusionPass, ih]

/-- The `allclips` accumulator only ever grows during one occlusion step. -/
theorem occlusionStep_allclips_mono (f : Bool) (disp : Region) (st : Region × Region)
    (d : Phase2Data) : st.1 ⊆ (occlusionStep f disp st d).2.1 := by
  unfold occlusionStep
  dsimp only
  split
  · exact Finset.subset_union_left
  · exact Finset.Subset.refl _

/-- The `allclips` accumulator only ever grows along the occlusion pass. -/
theorem occlusionPass_allclips_mono (f : Bool) (disp : Region) (l : List Phase2Data)
    (st : Region × Region) : st.1 ⊆ (occlusionPass f disp l st).2.1 := by
  induction l generalizing st with
  | nil => exact Finset.Subset.refl _
  | cons d rest ih =>
      refine (ih st).trans ?_
      exact occlusionStep_allclips_mono f disp (occlusionPass f disp rest st).2 d

/-- If the display is already covered by `allclips` and the translucent-damage
accumulator is contained in `allclips`, then one occlusion step computes an
empty paint region for the window and both containments persist. -/
theorem occlusionStep_empty (f : Bool) (disp : Region) (st : Region × Region)
    (d : Phase2Data) (hdisp : disp ⊆ st.1) (hutd : st.2 ⊆ st.1)
    (hd : d.region ⊆ disp) :
    (occlusionStep f disp st d).1.region = ∅ ∧
      disp ⊆ (occlusionStep f disp st d).2.1 ∧
      (occlusionStep f disp st d).2.2 ⊆ (occlusionStep f disp st d).2.1 := by
  have hrT : disp \ st.1 = ∅ := Finset.sdiff_eq_empty_iff_subset.mpr hdisp
  have hrF : (d.region ∪ st.2) \ st.1 = ∅ :=
    Finset.sdiff_eq_empty_iff_subset.mpr (Finset.union_subset (hd.trans hdisp) hutd)
  have hr1 : (if f then disp else d.region ∪ st.2) \ st.1 = ∅ := by
    split
    · exact hrT
    · exact hrF
  unfold occlusionStep
  dsimp only
  split
  · refine ⟨hr1, hdisp.trans Finset.subset_union_left, ?_⟩
    split
    · exact hutd.trans Finset.subset_union_left
    · rw [hrF]
      simp only [Finset.empty_sdiff, Finset.union_empty]
      exact hutd.trans Finset.subset_union_left
  · refine ⟨hr1, hdisp, ?_⟩
    split
    · exact hutd
    · rw [hrF]
      simpa using hutd

/-- Once `allclips` covers the display, the occlusion pass computes an empty
paint region for every remaining (lower) window, and the containments of
`occlusionStep_empty` persist to the final state. -/
theorem occlusionPass_empty (f : Bool) (disp : Region) (l : List Phase2Data)
    (st : Region × Region) (hdisp : disp ⊆ st.1) (hutd : st.2 ⊆ st.1)
    (hl : ∀ d ∈ l, d.region ⊆ disp) :
    (∀ d' ∈ (occlusionPass f disp l st).1, d'.region = ∅) ∧
      disp ⊆ (occlusionPass f disp l st).2.1 ∧
      (occlusionPass f disp l st).2.2 ⊆ (occlusionPass f disp l st).2.1 := by
  induction l generalizing st with
  | nil => exact ⟨by simp [occlusionPass], hdisp, hutd⟩
  | cons d rest ih =>
      obtain ⟨hrest, hdisp', hutd'⟩ :=
        ih st hdisp hutd (fun d' hd' => hl d' (List.mem_cons_of_mem d hd'))
      obtain ⟨hdreg, hdisp'', hutd''⟩ :=
        occlusionStep_empty f disp (occlusionPass f disp rest st).2 d hdisp' hutd'
          (hl d (List.mem_cons_self d rest))
      refine ⟨?_, hdisp'', hutd''⟩
      intro d' hd'
      simp only [occlusionPass, List.mem_cons] at hd'
      rcases hd' with h | h
      · rw [h]; exact hdreg
      · exact hrest d' h

/-- Processing a fully opaque topmost window whose opaque clip covers the
display, starting from the loop's initial state `(∅, repaint_region)`,
establishes the containments needed by `occlusionPass_empty`. -/
theorem occlusionStep_top (f : Bool) (disp repaint : Region) (top : Phase2Data)
    (htr : top.translucent = false) (hclip : disp ⊆ top.clip)
    (hrep : repaint ⊆ disp) (hreg : top.region ⊆ disp) :
    disp ⊆ (occlusionStep f disp ((∅ : Region), repaint) top).2.1 ∧
      (occlusionStep f disp ((∅ : Region), repaint) top).2.2 ⊆
        (occlusionStep f disp ((∅ : Region), repaint) top).2.1 := by
  by_cases hc : top.clip = ∅
  · have hdisp : disp = ∅ := Finset.subset_empty.mp (hc ▸ hclip)
    have hrep0 : repaint = ∅ := Finset.subset_empty.mp (hdisp ▸ hrep)
    have hreg0 : top.region = ∅ := Finset.subset_empty.mp (hdisp ▸ hreg)
    unfold occlusionStep
    dsimp only
    rw [if_neg (by simp [hc])]
    refine ⟨by simp [hdisp], ?_⟩
    split
    · simp [hrep0]
    · simp [hdisp, hrep0, hreg0]
  · unfold occlusionStep
    dsimp only
    rw [if_pos ⟨hc, htr⟩]
    refine ⟨hclip.trans Finset.subset_union_right, ?_⟩
    have hr1 : (top.region ∪ repaint) \ (∅ : Region) ⊆ top.clip := by
      rw [Finset.sdiff_empty]
      exact Finset.union_subset (hreg.trans hclip) (hrep.trans hclip)
    split
    · exact (hrep.trans hclip).trans Finset.subset_union_right
    · refine Finset.union_subset ((hrep.trans hclip).trans Finset.subset_union_right) ?_
      refine Finset.Subset.trans ?_ Finset.subset_union_right
      exact (Finset.sdiff_subset).trans hr1

/-- The dirty-area accumulation stays inside the display when all inputs do. -/
theorem dirtyArea_subset (regionArg disp : Region) (l : List Phase2Data)
    (hreg : regionArg ⊆ disp) (hl : ∀ d ∈ l, d.region ⊆ disp) :
    l.foldl (fun acc d => acc ∪ d.region) regionArg ⊆ disp := by
  induction l generalizing regionArg with
  | nil => exact hreg
  | cons d rest ih =>
      exact ih (regionArg ∪ d.region)
        (Finset.union_subset hreg (hl d (List.mem_cons_self d rest)))
        (fun d' hd' => hl d' (List.mem_cons_of_mem d hd'))

/-- C1: in the optimized paint path, for every window stack whose topmost
scheduled window is fully opaque (not marked translucent) and whose opaque
clip covers the entire output rectangle, and whose input regions lie inside
the output rectangle (as arranged by `Scene::paintScreen`'s clipping and the
per-output repaint bookkeeping), the occlusion pass computes an empty final
paint region for every window below the topmost one, and the background fill
region is empty. -/
theorem paintSimpleScreen_occlusion (regionArg repaintRegion displayRegion : Region)
    (rest : List Phase2Data) (top : Phase2Data)
    (hreg : regionArg ⊆ displayRegion) (hrep : repaintRegion ⊆ displayRegion)
    (hwin : ∀ d ∈ rest ++ [top], d.region ⊆ displayRegion)
    (htr : top.translucent = false) (hclip : displayRegion ⊆ top.clip) :
    (∀ r ∈ (simpleScreenRegions regionArg repaintRegion displayRegion
        (rest ++ [top])).1.dropLast, r = ∅) ∧
      (simpleScreenRegions regionArg repaintRegion displayRegion (rest ++ [top])).2 = ∅ := by
  have htopreg : top.region ⊆ displayRegion :=
    hwin top (List.mem_append_right rest (List.mem_cons_self top []))
  have hrest : ∀ d ∈ rest, d.region ⊆ displayRegion :=
    fun d hd => hwin d (List.mem_append_left [top] hd)
  unfold simpleScreenRegions
  dsimp only
  set f : Bool :=
    decide ((rest ++ [top]).foldl (fun acc d => acc ∪ d.region) regionArg ∪ repaintRegion =
      displayRegion) with hf
  rw [occlusionPass_append]
  have hsingle : occlusionPass f displayRegion [top] ((∅ : Region), repaintRegion) =
      ([(occlusionStep f displayRegion ((∅ : Region), repaintRegion) top).1],
        (occlusionStep f displayRegion ((∅ : Region), repaintRegion) top).2) := by
    simp [occlusionPass]
  rw [hsingle]
  obtain ⟨htop1, htop2⟩ :=
    occlusionStep_top f displayRegion repaintRegion top htr hclip hrep htopreg
  obtain ⟨hrest0, hfinal1, _⟩ :=
    occlusionPass_empty f displayRegion rest
      (occlusionStep f displayRegion ((∅ : Region), repaintRegion) top).2 htop1 htop2 hrest
  constructor
  · intro r hr
    rw [List.map_append, List.map_singleton, List.dropLast_concat] at hr
    obtain ⟨d', hd', rfl⟩ := List.mem_map.mp hr
    exact hrest0 d' hd'
  · rw [Finset.sdiff_eq_empty_iff_subset]
    have hdirty : (rest ++ [top]).foldl (fun acc d => acc ∪ d.region) regionArg ∪
        repaintRegion ⊆ displayRegion :=
      Finset.union_subset (dirtyArea_subset regionArg displayRegion (rest ++ [top]) hreg hwin)
        hrep
    exact hdirty.trans hfinal1

/-- Witness for `paintSimpleScreen_occlusion` at a concrete input: a 1×1
output, one translucent window at the bottom and an opaque full-screen window
on top. -/
theorem paintSimpleScreen_occlusion_witness :
    (∀ r ∈ (simpleScreenRegions {((0 : ℤ), (0 : ℤ))} ∅ {((0 : ℤ), (0 : ℤ))}
        ([⟨{((0 : ℤ), (0 : ℤ))}, ∅, true⟩] ++
          [⟨{((0 : ℤ), (0 : ℤ))}, {((0 : ℤ), (0 : ℤ))}, false⟩])).1.dropLast, r = ∅) ∧
      (simpleScreenRegions {((0 : ℤ), (0 : ℤ))} ∅ {((0 : ℤ), (0 : ℤ))}
        ([⟨{((0 : ℤ), (0 : ℤ))}, ∅, true⟩] ++
          [⟨{((0 : ℤ), (0 : ℤ))}, {((0 : ℤ), (0 : ℤ))}, false⟩])).2 = ∅ :=
  paintSimpleScreen_occlusion {((0 : ℤ), (0 : ℤ))} ∅ {((0 : ℤ), (0 : ℤ))}
    [⟨{((0 : ℤ), (0 : ℤ))}, ∅, true⟩] ⟨{((0 : ℤ), (0 : ℤ))}, {((0 : ℤ), (0 : ℤ))}, false⟩
    (by decide) (by decide) (by decide) (by decide) (by decide)

end Scene

namespace ItemTree

/-- Qt's `QRect` as used by `Item` (item.cpp): integer position and size. -/
structure QRect where
  x : Int
  y : Int
  w : Int
  h : Int
deriving DecidableEq, Repr

/-- `QRect::isNull`: width and height are both 0. -/
def QRect.isNull (r : QRect) : Bool := r.w = 0 && r.h = 0

/-- `QRect::operator|` (bounding union), for the normalized rectangles `Item`
produces: a null rectangle is the identity, otherwise the smallest rectangle
containing both operands. -/
def QRect.united (a b : QRect) : QRect :=
  if a.isNull then b
  else if b.isNull then a
  else
    let nx := min a.x b.x
    let ny := min a.y b.y
    ⟨nx, ny, max (a.x + a.w) (b.x + b.w) - nx, max (a.y + a.h) (b.y + b.h) - ny⟩

/-- `QRect::translated(QPoint)`. -/
def QRect.translated (r : QRect) (p : Int × Int) : QRect :=
  ⟨r.x + p.1, r.y + p.2, r.w, r.h⟩

/-- The scalar geometry fields of `Item` (item.cpp): `m_x`, `m_y`, `m_width`,
`m_height`, `m_implicitWidth`, `m_implicitHeight`, `m_widthValid`,
`m_heightValid`. -/
structure Geometry where
  x : Int
  y : Int
  width : Int
  height : Int
  implicitWidth : Int
  implicitHeight : Int
  widthValid : Bool
  heightValid : Bool
deriving DecidableEq, Repr

/-- `Item::width()`: `m_widthValid ? m_width : m_implicitWidth`. -/
def Geometry.effectiveWidth (g : Geometry) : Int :=
  if g.widthValid then g.width else g.implicitWidth

/-- `Item::height()`: `m_heightValid ? m_height : m_implicitHeight`. -/
def Geometry.effectiveHeight (g : Geometry) : Int :=
  if g.heightValid then g.height else g.implicitHeight

/-- `Item::rect()`: `QRect(QPoint(0, 0), size())`. -/
def Geometry.rect (g : Geometry) : QRect :=
  ⟨0, 0, g.effectiveWidth, g.effectiveHeight⟩

/-- `Item::position()`: `QPoint(x(), y())`. -/
def Geometry.position (g : Geometry) : Int × Int := (g.x, g.y)

/-- An `Item` tree node: scalar geometry, the cached `m_boundingRect`, and the
exclusively owned `m_childItems` (in stacking order).  The parent
back-reference of the C++ object graph is implicit in the tree structure. -/
inductive Item where
  | mk (geo : Geometry) (boundingRect : QRect) (childItems : List Item)

/-- The geometry fields of an item. -/
def Item.geo : Item → Geometry
  | .mk g _ _ => g

/-- `Item::boundingRect()`: the cached `m_boundingRect`. -/
def Item.boundingRect : Item → QRect
  | .mk _ b _ => b

/-- `Item::childItems()`. -/
def Item.childItems : Item → List Item
  | .mk _ _ c => c

/-- `Item::position()`. -/
def Item.position (it : Item) : Int × Int := it.geo.position

/-- The recomputation inside `Item::updateBoundingRect` (item.cpp):
```
QRect boundingRect = rect();
for (Item *item : qAsConst(m_childItems)) {
    boundingRect |= item->boundingRect().translated(item->position());
}
``` -/
def computeBoundingRect (geo : Geometry) (children : List Item) : QRect :=
  children.foldl (fun acc c => acc.united (c.boundingRect.translated c.position)) geo.rect

/-- `Item::updateBoundingRect`: recompute; if the value changed, store it and
emit `boundingRectChanged` (the returned `Bool`). -/
def updateBoundingRect (geo : Geometry) (bound : QRect) (children : List Item) :
    QRect × Bool :=
  let nb := computeBoundingRect geo children
  if nb ≠ bound then (nb, true) else (bound, false)

/-- Install a new geometry on a node and run its `updateBoundingRect`
(used by the size setters, which call `updateBoundingRect()` themselves). -/
def applySelfUpdate (g : Geometry) (it : Item) : Item × Bool :=
  let res := updateBoundingRect g it.boundingRect it.childItems
  (.mk g res.1 it.childItems, res.2)

/-- `Item::setX`: no-op when unchanged; otherwise store and emit `xChanged`.
The returned `Bool` is "emitted a signal the parent is connected to"
(`xChanged`/`yChanged`/`boundingRectChanged`). -/
def setXOp (v : Int) (it : Item) : Item × Bool :=
  if it.geo.x = v then (it, false)
  else (.mk { it.geo with x := v } it.boundingRect it.childItems, true)

/-- `Item::setY`. -/
def setYOp (v : Int) (it : Item) : Item × Bool :=
  if it.geo.y = v then (it, false)
  else (.mk { it.geo with y := v } it.boundingRect it.childItems, true)

/-- `Item::setPosition`: stores both coordinates, emitting `xChanged`/`yChanged`
only for the dirty ones. -/
def setPositionOp (px py : Int) (it : Item) : Item × Bool :=
  let xDirty := it.geo.x ≠ px
  let yDirty := it.geo.y ≠ py
  (.mk { it.geo with x := px, y := py } it.boundingRect it.childItems,
    decide (xDirty ∨ yDirty))

/-- `Item::setWidth`: no-op when an explicit equal width is already set;
otherwise store, mark valid and run `updateBoundingRect` (`widthChanged` is
not connected to the parent, so only `boundingRectChanged` propagates). -/
def setWidthOp (v : Int) (it : Item) : Item × Bool :=
  if it.geo.widthValid ∧ it.geo.width = v then (it, false)
  else applySelfUpdate { it.geo with width := v, widthValid := true } it

/-- `Item::setHeight`. -/
def setHeightOp (v : Int) (it : Item) : Item × Bool :=
  if it.geo.heightValid ∧ it.geo.height = v then (it, false)
  else applySelfUpdate { it.geo with height := v, heightValid := true } it

/-- `Item::setSize`: dirty when the *effective* width/height changes; the
explicit size and validity flags are stored either way; `updateBoundingRect`
runs only in the dirty case. -/
def setSizeOp (wv hv : Int) (it : Item) : Item × Bool :=
  let widthDirty := it.geo.effectiveWidth ≠ wv
  let heightDirty := it.geo.effectiveHeight ≠ hv
  let g := { it.geo with width := wv, widthValid := true, height := hv, heightValid := true }
  if widthDirty ∨ heightDirty then applySelfUpdate g it
  else (.mk g it.boundingRect it.childItems, false)

/-- `Item::setImplicitSize`: dirty only for a coordinate with no explicit
size set; the implicit sizes are stored either way. -/
def setImplicitSizeOp (wv hv : Int) (it : Item) : Item × Bool :=
  let widthDirty := it.geo.implicitWidth ≠ wv ∧ it.geo.widthValid = false
  let heightDirty := it.geo.implicitHeight ≠ hv ∧ it.geo.heightValid = false
  let g := { it.geo with implicitWidth := wv, implicitHeight := hv }
  if widthDirty ∨ heightDirty then applySelfUpdate g it
  else (.mk g it.boundingRect it.childItems, false)

/-- `Item::addChild`: append the child, connect its `xChanged`/`yChanged`/
`boundingRectChanged` signals, and run `updateBoundingRect`.
(`Item::setParentItem` is `removeChild` on the old parent followed by
`addChild` on the new one.) -/
def addChildOp (child : Item) (it : Item) : Item × Bool :=
  let children := it.childItems ++ [child]
  let res := updateBoundingRect it.geo it.boundingRect children
  (.mk it.geo res.1 children, res.2)

/-- `Item::removeChild` (the child is addressed by its index in
`m_childItems`): remove, disconnect, and run `updateBoundingRect`. -/
def removeChildOp (i : Nat) (it : Item) : Item × Bool :=
  let children := it.childItems.eraseIdx i
  let res := updateBoundingRect it.geo it.boundingRect children
  (.mk it.geo res.1 children, res.2)

/-- Apply a mutation `f` to the node at `path` (a chain of child indices) and
propagate Qt's signal/slot reactions up the ancestor chain: a parent is
connected to the mutated child's `xChanged`/`yChanged`/`boundingRectChanged`,
so it reruns `updateBoundingRect` exactly when the child reports a signal, and
its own `boundingRectChanged` propagates one level further. -/
def applyAt (f : Item → Item × Bool) : List Nat → Item → Item × Bool
  | [], it => f it
  | i :: p, it =>
      match it.childItems.get? i with
      | none => (it, false)
      | some c =>
          let res := applyAt f p c
          let children := it.childItems.set i res.1
          if res.2 then
            let res' := updateBoundingRect it.geo it.boundingRect children
            (.mk it.geo res'.1 children, res'.2)
          else
            (.mk it.geo it.boundingRect children, false)

/-- The geometry and tree mutations claim C6 quantifies over. -/
inductive ItemOp where
  | setX (v : Int)
  | setY (v : Int)
  | setPosition (px py : Int)
  | setWidth (v : Int)
  | setHeight (v : Int)
  | setSize (w h : Int)
  | setImplicitSize (w h : Int)
  | addChild (child : Item)
  | removeChild (i : Nat)

/-- Interpret one mutation as a node-level function. -/
def ItemOp.run : ItemOp → Item → Item × Bool
  | .setX v => setXOp v
  | .setY v => setYOp v
  | .setPosition px py => setPositionOp px py
  | .setWidth v => setWidthOp v
  | .setHeight v => setHeightOp v
  | .setSize w h => setSizeOp w h
  | .setImplicitSize w h => setImplicitSizeOp w h
  | .addChild child => addChildOp child
  | .removeChild i => removeChildOp i

/-- Run one mutation at a path in the tree. -/
def applyOp (op : ItemOp) (path : List Nat) (it : Item) : Item :=
  (applyAt op.run path it).1

/-- Run a finite sequence of mutations, each at its own path. -/
def applyOps : List (List Nat × ItemOp) → Item → Item
  | [], it => it
  | po :: ops, it => applyOps ops (applyOp po.2 po.1 it)

mutual

/-- The bounding-rect invariant, recursively: every node's cached
`m_boundingRect` equals its own `rect()` unioned with each child's bounding
rect translated by the child's position. -/
def Item.wfB : Item → Bool
  | .mk g b cs => decide (b = computeBoundingRect g cs) && wfListB cs

/-- `Item.wfB` for every element of a child list. -/
def wfListB : List Item → Bool
  | [] => true
  | c :: cs => c.wfB && wfListB cs

end

/-- The invariant for the subtree an `addChild` mutation grafts in (a real
`Item` always satisfies it, having been built through the same setters). -/
def ItemOp.wfB : ItemOp → Bool
  | .addChild child => child.wfB
  | _ => true

/-- `Item::stackChildren` (item.cpp):
```
if (m_childItems.count() != children.count()) {
    qCWarning(KWIN_CORE) << Q_FUNC_INFO << "invalid child list";
    return;
}
m_childItems = children;
```
(The debug-build `Q_ASSERT_X` loop only checks each entry's parent pointer,
not that the list is a permutation of `m_childItems`; in release builds it is
compiled out entirely.) -/
def stackChildren (it : Item) (children : List Item) : Item :=
  if it.childItems.length ≠ children.length then it
  else .mk it.geo it.boundingRect children

/-- `updateBoundingRect` always stores the recomputed bounding rectangle. -/
theorem updateBoundingRect_fst (g : Geometry) (b : QRect) (cs : List Item) :
    (updateBoundingRect g b cs).1 = computeBoundingRect g cs := by
  unfold updateBoundingRect
  dsimp only
  split
  · rfl
  · rename_i h
    exact (not_ne_iff.mp h).symm

/-- If `updateBoundingRect` did not emit `boundingRectChanged`, the stored
value is unchanged. -/
theorem updateBoundingRect_snd_false (g : Geometry) (b : QRect) (cs : List Item)
    (h : (updateBoundingRect g b cs).2 = false) : (updateBoundingRect g b cs).1 = b := by
  unfold updateBoundingRect at h ⊢
  dsimp only at h ⊢
  split at h
  · simp at h
  · rename_i hne
    rw [if_neg hne]

/-- Unfolding of the invariant at a node. -/
theorem wfB_mk (g : Geometry) (b : QRect) (cs : List Item) :
    (Item.mk g b cs).wfB = true ↔ b = computeBoundingRect g cs ∧ wfListB cs = true := by
  simp [Item.wfB]

/-- The child-list invariant is membership-wise. -/
theorem wfListB_iff (cs : List Item) : wfListB cs = true ↔ ∀ c ∈ cs, c.wfB = true := by
  induction cs with
  | nil => simp [wfListB]
  | cons c cs ih => simp [wfListB, ih]

/-- Replacing a child by an invariant-satisfying item preserves the list
invariant. -/
theorem wfListB_set (cs : List Item) (i : ℕ) (c' : Item) (h : wfListB cs = true)
    (hc' : c'.wfB = true) : wfListB (cs.set i c') = true := by
  rw [wfListB_iff] at h ⊢
  intro c hc
  rcases List.mem_or_eq_of_mem_set hc with hmem | rfl
  · exact h c hmem
  · exact hc'

/-- Removing a child preserves the list invariant. -/
theorem wfListB_eraseIdx (cs : List Item) (i : ℕ) (h : wfListB cs = true) :
    wfListB (cs.eraseIdx i) = true := by
  rw [wfListB_iff] at h ⊢
  intro c hc
  exact h c ((cs.eraseIdx_sublist i).mem hc)

/-- Appending an invariant-satisfying child preserves the list invariant. -/
theorem wfListB_append (cs : List Item) (c : Item) (h : wfListB cs = true)
    (hc : c.wfB = true) : wfListB (cs ++ [c]) = true := by
  rw [wfListB_iff] at h ⊢
  intro c' hc'
  rcases List.mem_append.mp hc' with hmem | hmem
  · exact h c' hmem
  · rw [List.mem_singleton.mp hmem]
    exact hc

/-- The recomputed bounding rectangle only depends on the node's `rect()` and
each child's stored bounding rectangle and position. -/
theorem computeBoundingRect_geo_congr (g g' : Geometry) (cs : List Item)
    (h : g.rect = g'.rect) : computeBoundingRect g cs = computeBoundingRect g' cs := by
  unfold computeBoundingRect
  rw [h]

/-- Replacing a child by one with the same stored bounding rectangle and the
same position leaves the recomputed bounding rectangle unchanged. -/
theorem computeBoundingRect_set (g : Geometry) (cs : List Item) (i : ℕ) (c c' : Item)
    (hget : cs.get? i = some c) (hb : c'.boundingRect = c.boundingRect)
    (hp : c'.position = c.position) :
    computeBoundingRect g (cs.set i c') = computeBoundingRect g cs := by
  unfold computeBoundingRect
  suffices h : ∀ (acc : QRect),
      (cs.set i c').foldl (fun acc c => acc.united (c.boundingRect.translated c.position)) acc =
        cs.foldl (fun acc c => acc.united (c.boundingRect.translated c.position)) acc by
    exact h _
  induction cs generalizing i with
  | nil => simp at hget
  | cons c₀ cs ih =>
      intro acc
      cases i with
      | zero =>
          simp only [List.get?] at hget
          obtain rfl : c₀ = c := by injection hget
          simp [List.set, hb, hp]
      | succ j =>
          simp only [List.get?] at hget
          simp only [List.set, List.foldl_cons]
          exact ih j hget _

/-- The contract a node-level mutation must satisfy for the invariant to be
maintained by signal propagation: it preserves the invariant, and when it
reports no signal, the node's stored bounding rectangle and position are
unchanged (so ancestors that skip recomputation stay consistent). -/
def GoodOp (f : Item → Item × Bool) : Prop :=
  ∀ it : Item, it.wfB = true →
    (f it).1.wfB = true ∧
      ((f it).2 = false → (f it).1.boundingRect = it.boundingRect ∧
        (f it).1.position = it.position)

/-- Signal propagation maintains the invariant: applying a `GoodOp` mutation
at any path keeps the whole tree invariant, and when no signal escapes the
path's root, its stored bounding rectangle and position are unchanged. -/
theorem applyAt_good (f : Item → Item × Bool) (hf : GoodOp f) (path : List Nat) :
    ∀ it : Item, it.wfB = true →
      (applyAt f path it).1.wfB = true ∧
        ((applyAt f path it).2 = false →
          (applyAt f path it).1.boundingRect = it.boundingRect ∧
          (applyAt f path it).1.position = it.position) := by
  induction path with
  | nil => exact fun it hwf => hf it hwf
  | cons i p ih =>
      intro it hwf
      obtain ⟨g, b, cs⟩ := it
      have hwf' := (wfB_mk g b cs).mp hwf
      obtain ⟨hb, hcs⟩ := hwf'
      simp only [applyAt, Item.childItems]
      split
      · exact ⟨hwf, fun _ => ⟨rfl, rfl⟩⟩
      · rename_i c hget
        have hcwf : c.wfB = true := (wfListB_iff cs).mp hcs c (List.get?_mem hget)
        obtain ⟨hwf1, hpres⟩ := ih c hcwf
        split
        · constructor
          · rw [wfB_mk]
            exact ⟨(updateBoundingRect_fst _ _ _).symm ▸ rfl,
              wfListB_set cs i _ hcs hwf1⟩
          · intro hsig'
            exact ⟨updateBoundingRect_snd_false _ _ _ hsig', rfl⟩
        · rename_i hsig
          have hpr := hpres (Bool.not_eq_true _ ▸ hsig)
          constructor
          · rw [wfB_mk]
            constructor
            · show b = computeBoundingRect g (cs.set i (applyAt f p c).1)
              rw [computeBoundingRect_set g cs i c (applyAt f p c).1 hget hpr.1 hpr.2]
              exact hb
            · exact wfListB_set cs i _ hcs hwf1
          · exact fun _ => ⟨rfl, rfl⟩

/-- `Item::setX` satisfies the mutation contract. -/
theorem goodOp_setX (v : Int) : GoodOp (setXOp v) := by
  intro it hwf
  obtain ⟨g, b, cs⟩ := it
  unfold setXOp
  dsimp only [Item.geo, Item.boundingRect, Item.childItems]
  split
  · exact ⟨hwf, fun _ => ⟨rfl, rfl⟩⟩
  · refine ⟨?_, fun h => by simp at h⟩
    rw [wfB_mk] at hwf ⊢
    exact ⟨hwf.1, hwf.2⟩

/-- `Item::setY` satisfies the mutation contract. -/
theorem goodOp_setY (v : Int) : GoodOp (setYOp v) := by
  intro it hwf
  obtain ⟨g, b, cs⟩ := it
  unfold setYOp
  dsimp only [Item.geo, Item.boundingRect, Item.childItems]
  split
  · exact ⟨hwf, fun _ => ⟨rfl, rfl⟩⟩
  · refine ⟨?_, fun h => by simp at h⟩
    rw [wfB_mk] at hwf ⊢
    exact ⟨hwf.1, hwf.2⟩

/-- `Item::setPosition` satisfies the mutation contract. -/
theorem goodOp_setPosition (px py : Int) : GoodOp (setPositionOp px py) := by
  intro it hwf
  obtain ⟨g, b, cs⟩ := it
  unfold setPositionOp
  dsimp only [Item.geo, Item.boundingRect, Item.childItems]
  constructor
  · rw [wfB_mk] at hwf ⊢
    exact ⟨hwf.1, hwf.2⟩
  · intro h
    rw [decide_eq_false_iff_not] at h
    push_neg at h
    refine ⟨rfl, ?_⟩
    simp [Item.position, Geometry.position, Item.geo, h.1, h.2]

/-- `Item::setWidth` satisfies the mutation contract. -/
theorem goodOp_setWidth (v : Int) : GoodOp (setWidthOp v) := by
  intro it hwf
  obtain ⟨g, b, cs⟩ := it
  unfold setWidthOp applySelfUpdate
  dsimp only [Item.geo, Item.boundingRect, Item.childItems]
  split
  · exact ⟨hwf, fun _ => ⟨rfl, rfl⟩⟩
  · rw [wfB_mk] at hwf
    constructor
    · rw [wfB_mk]
      exact ⟨(updateBoundingRect_fst _ _ _).symm ▸ rfl, hwf.2⟩
    · intro h
      exact ⟨updateBoundingRect_snd_false _ _ _ h, rfl⟩

/-- `Item::setHeight` satisfies the mutation contract. -/
theorem goodOp_setHeight (v : Int) : GoodOp (setHeightOp v) := by
  intro it hwf
  obtain ⟨g, b, cs⟩ := it
  unfold setHeightOp applySelfUpdate
  dsimp only [Item.geo, Item.boundingRect, Item.childItems]
  split
  · exact ⟨hwf, fun _ => ⟨rfl, rfl⟩⟩
  · rw [wfB_mk] at hwf
    constructor
    · rw [wfB_mk]
      exact ⟨(updateBoundingRect_fst _ _ _).symm ▸ rfl, hwf.2⟩
    · intro h
      exact ⟨updateBoundingRect_snd_false _ _ _ h, rfl⟩

/-- `Item::setSize` satisfies the mutation contract. -/
theorem goodOp_setSize (wv hv : Int) : GoodOp (setSizeOp wv hv) := by
  intro it hwf
  obtain ⟨g, b, cs⟩ := it
  unfold setSizeOp applySelfUpdate
  dsimp only [Item.geo, Item.boundingRect, Item.childItems]
  split
  · rw [wfB_mk] at hwf
    constructor
    · rw [wfB_mk]
      exact ⟨(updateBoundingRect_fst _ _ _).symm ▸ rfl, hwf.2⟩
    · intro h
      exact ⟨updateBoundingRect_snd_false _ _ _ h, rfl⟩
  · rename_i hnd
    push_neg at hnd
    have hrect : ({ g with width := wv, widthValid := true, height := hv, heightValid := true } : Geometry).rect = g.rect := by
      simp only [Geometry.rect, Geometry.effectiveWidth, Geometry.effectiveHeight, if_true]
      rw [← hnd.1, ← hnd.2]
      simp [Geometry.effectiveWidth, Geometry.effectiveHeight]
    constructor
    · rw [wfB_mk] at hwf ⊢
      refine ⟨?_, hwf.2⟩
      rw [computeBoundingRect_geo_congr _ g cs hrect]
      exact hwf.1
    · exact fun _ => ⟨rfl, rfl⟩

/-- `Item::setImplicitSize` satisfies the mutation contract. -/
theorem goodOp_setImplicitSize (wv hv : Int) : GoodOp (setImplicitSizeOp wv hv) := by
  intro it hwf
  obtain ⟨g, b, cs⟩ := it
  unfold setImplicitSizeOp applySelfUpdate
  dsimp only [Item.geo, Item.boundingRect, Item.childItems]
  split
  · rw [wfB_mk] at hwf
    constructor
    · rw [wfB_mk]
      exact ⟨(updateBoundingRect_fst _ _ _).symm ▸ rfl, hwf.2⟩
    · intro h
      exact ⟨updateBoundingRect_snd_false _ _ _ h, rfl⟩
  · rename_i hnd
    push_neg at hnd
    have hw : (if g.widthValid = true then g.width else wv) =
        (if g.widthValid = true then g.width else g.implicitWidth) := by
      by_cases hwv : g.widthValid = true
      · simp [hwv]
      · have hiw : g.implicitWidth = wv := by
          by_contra hne
          exact hnd.1 hne (by simpa using hwv)
        simp [hwv, hiw]
    have hh : (if g.heightValid = true then g.height else hv) =
        (if g.heightValid = true then g.height else g.implicitHeight) := by
      by_cases hhv : g.heightValid = true
      · simp [hhv]
      · have hih : g.implicitHeight = hv := by
          by_contra hne
          exact hnd.2 hne (by simpa using hhv)
        simp [hhv, hih]
    have hrect : ({ g with implicitWidth := wv, implicitHeight := hv } : Geometry).rect =
        g.rect := by
      simp only [Geometry.rect, Geometry.effectiveWidth, Geometry.effectiveHeight]
      rw [hw, hh]
    constructor
    · rw [wfB_mk] at hwf ⊢
      refine ⟨?_, hwf.2⟩
      rw [computeBoundingRect_geo_congr _ g cs hrect]
      exact hwf.1
    · exact fun _ => ⟨rfl, rfl⟩

/-- `Item::addChild` satisfies the mutation contract when the grafted subtree
itself satisfies the invariant. -/
theorem goodOp_addChild (child : Item) (hc : child.wfB = true) :
    GoodOp (addChildOp child) := by
  intro it hwf
  obtain ⟨g, b, cs⟩ := it
  unfold addChildOp
  dsimp only [Item.geo, Item.boundingRect, Item.childItems]
  rw [wfB_mk] at hwf
  constructor
  · rw [wfB_mk]
    exact ⟨(updateBoundingRect_fst _ _ _).symm ▸ rfl, wfListB_append cs child hwf.2 hc⟩
  · intro h
    exact ⟨updateBoundingRect_snd_false _ _ _ h, rfl⟩

/-- `Item::removeChild` satisfies the mutation contract. -/
theorem goodOp_removeChild (i : ℕ) : GoodOp (removeChildOp i) := by
  intro it hwf
  obtain ⟨g, b, cs⟩ := it
  unfold removeChildOp
  dsimp only [Item.geo, Item.boundingRect, Item.childItems]
  rw [wfB_mk] at hwf
  constructor
  · rw [wfB_mk]
    exact ⟨(updateBoundingRect_fst _ _ _).symm ▸ rfl, wfListB_eraseIdx cs i hwf.2⟩
  · intro h
    exact ⟨updateBoundingRect_snd_false _ _ _ h, rfl⟩

/-- Every claimed mutation satisfies the contract (for `addChild`, provided
the grafted subtree satisfies the invariant). -/
theorem ItemOp.good (op : ItemOp) (hop : op.wfB = true) : GoodOp op.run := by
  cases op with
  | setX v => exact goodOp_setX v
  | setY v => exact goodOp_setY v
  | setPosition px py => exact goodOp_setPosition px py
  | setWidth v => exact goodOp_setWidth v
  | setHeight v => exact goodOp_setHeight v
  | setSize w h => exact goodOp_setSize w h
  | setImplicitSize w h => exact goodOp_setImplicitSize w h
  | addChild child => exact goodOp_addChild child (by simpa [ItemOp.wfB] using hop)
  | removeChild i => exact goodOp_removeChild i

/-- C6: for every `Item` tree satisfying the bounding-rect invariant (as every
tree built through the constructors does), after any finite sequence of
geometry mutations (`setX`/`setY`/`setPosition`, `setWidth`/`setHeight`/
`setSize`/`setImplicitSize`) and reparent/add/remove-child operations (each
grafted subtree itself invariant), every item's cached `boundingRect()` still
equals its own `rect()` unioned with every child's `boundingRect()` translated
by that child's `position()` — which is exactly `Item.wfB`. -/
theorem applyOps_boundingRect_invariant (ops : List (List ℕ × ItemOp)) (it : Item)
    (hwf : it.wfB = true) (hops : ∀ po ∈ ops, po.2.wfB = true) :
    (applyOps ops it).wfB = true := by
  induction ops generalizing it with
  | nil => exact hwf
  | cons po ops ih =>
      have hstep : (applyOp po.2 po.1 it).wfB = true :=
        (applyAt_good po.2.run (ItemOp.good po.2 (hops po (List.mem_cons_self po ops)))
          po.1 it hwf).1
      exact ih (applyOp po.2 po.1 it) hstep
        (fun po' h => hops po' (List.mem_cons_of_mem po h))

/-- Witness for `applyOps_boundingRect_invariant` at a concrete input: a
two-node tree undergoing a resize, a move of the child, an implicit-size
change, a reparent-style child removal and a re-add of a fresh subtree. -/
theorem applyOps_boundingRect_invariant_witness :
    (applyOps
      [([], .setSize 4 4), ([0], .setX 2), ([0], .setImplicitSize 3 3),
        ([], .removeChild 0), ([], .addChild (Item.mk ⟨1, 1, 2, 2, 0, 0, true, true⟩ ⟨0, 0, 2, 2⟩ [])),
        ([0], .setPosition 5 6)]
      (Item.mk ⟨0, 0, 2, 2, 0, 0, true, true⟩ ⟨0, 0, 2, 2⟩
        [Item.mk ⟨1, 1, 1, 1, 0, 0, true, true⟩ ⟨0, 0, 1, 1⟩ []])).wfB = true :=
  applyOps_boundingRect_invariant _ _ (by decide) (by decide)

/-- C10 counterexample components: two structurally distinct leaf items. -/
def leafA : Item := .mk ⟨0, 0, 1, 1, 0, 0, true, true⟩ ⟨0, 0, 1, 1⟩ []

/-- See `leafA`. -/
def leafB : Item := .mk ⟨0, 0, 2, 2, 0, 0, true, true⟩ ⟨0, 0, 2, 2⟩ []

/-- A parent with child order `[leafA, leafB]`. -/
def stackParent : Item :=
  .mk ⟨0, 0, 2, 2, 0, 0, true, true⟩ ⟨0, 0, 2, 2⟩ [leafA, leafB]

/-- C10 counterexample: `[leafA, leafA]` is not a permutation of the current
children `[leafA, leafB]`, yet `stackChildren` installs it (the only check the
code performs is a length comparison), changing the existing child order. -/
theorem stackChildren_not_permutation_mutates :
    ¬ List.Perm [leafA, leafA] stackParent.childItems ∧
      (stackChildren stackParent [leafA, leafA]).childItems ≠ stackParent.childItems := by
  have hAB : leafA ≠ leafB := by
    intro h
    have hg := congrArg Item.geo h
    simp [leafA, leafB, Item.geo] at hg
  constructor
  · intro hperm
    have hmem : leafB ∈ [leafA, leafA] := hperm.symm.subset (by
      simp [stackParent, Item.childItems])
    have h2 : leafB = leafA := by
      rcases List.mem_cons.mp hmem with h | h
      · exact h
      · exact List.mem_singleton.mp h
    exact hAB h2.symm
  · intro h
    have hc : (stackChildren stackParent [leafA, leafA]).childItems = [leafA, leafA] := rfl
    rw [hc] at h
    have h' : [leafA, leafA] = [leafA, leafB] := h
    injection h' with hhead htail
    injection htail with hhead2 htail2
    exact hAB hhead2

/-- C10 (amended): `stackChildren` leaves the existing child order unchanged
exactly when the input list's length differs from the current child count; any
same-length input — permutation of the current children or not — is installed
as the new child order (the code performs no permutation check; the
debug-build assertion only inspects parent pointers). -/
theorem stackChildren_length_check (it : Item) (children : List Item) :
    (it.childItems.length ≠ children.length → stackChildren it children = it) ∧
      (it.childItems.length = children.length →
        (stackChildren it children).childItems = children) := by
  constructor
  · intro h
    simp [stackChildren, h]
  · intro h
    unfold stackChildren
    rw [if_neg (not_not_intro h)]
    rfl

/-- Witness for `stackChildren_length_check`: a length-1 input is rejected by
the length check, while the same-length non-permutation `[leafA, leafA]` is
installed. -/
theorem stackChildren_length_check_witness :
    stackChildren stackParent [leafA] = stackParent ∧
      (stackChildren stackParent [leafA, leafA]).childItems = [leafA, leafA] :=
  ⟨(stackChildren_length_check stackParent [leafA]).1 (by decide),
    (stackChildren_length_check stackParent [leafA, leafA]).2 (by decide)⟩

end ItemTree

namespace Drm

/-- `DrmOutput::DpmsMode` (drm_output.h). -/
inductive DpmsMode where
  | On
  | Standby
  | Suspend
  | Off
deriving DecidableEq, Repr

/-- `DrmOutput::AtomicCommitMode`. -/
inductive AtomicCommitMode where
  | Test
  | Real
deriving DecidableEq, Repr

/-- `DrmOutput::m_lastWorkingState` (drm_output.h): the snapshot taken after a
successful modeset commit and restored when an atomic test commit fails.
Modes, transforms and plane transformations are identified by opaque numeric
ids; the hardware interpretation of the values is irrelevant here. -/
structure LastWorkingState where
  valid : Bool
  mode : ℕ
  transform : ℕ
  globalPos : ℤ × ℤ
  planeTransformations : ℕ
deriving DecidableEq, Repr

/-- The in-memory `DrmOutput` state driving `present`, `updateDpms`,
`pageFlipped` and `doAtomicCommit` (drm_output.cpp).  Buffers are identified
by numeric ids; `planeInFlipList` says whether `m_nextPlanesFlipList` holds
the primary plane (the only plane the code uses). -/
structure OutputState where
  mode : ℕ
  transform : ℕ
  globalPos : ℤ × ℤ
  planeTransformation : ℕ
  planeNext : Option ℕ
  planeCurrent : Option ℕ
  planeInFlipList : Bool
  modesetRequested : Bool
  pageFlipPending : Bool
  atomicOffPending : Bool
  dpmsMode : DpmsMode
  dpmsModePending : DpmsMode
  lastWorkingState : LastWorkingState
  sessionActive : Bool
  gpuAtomicModeSetting : Bool
  gpuUseEglStreams : Bool
  gpuDeleteBufferAfterPageFlip : Bool
  renderLoopInhibited : Bool
  dpmsPropertyPresent : Bool
  enabled : Bool
  deleted : Bool
  crtcNext : Option ℕ
  crtcCurrent : Option ℕ
deriving DecidableEq, Repr

/-- Commit-type operations issued to the DRM device, in program order.  An
atomic commit records the commit mode and the pending DPMS mode it was built
for (`atomicReal Off` is "the DPMS-off commit"). -/
inductive CommitEvent where
  | atomicTest (dpmsPending : DpmsMode)
  | atomicReal (dpmsPending : DpmsMode)
  | legacyModeset
  | legacyPageFlip
  | legacySetProperty (mode : DpmsMode)
deriving DecidableEq, Repr

/-- `DrmOutput::dpmsFinishOff`: notify the wayland output and inhibit the
output's render loop (only the inhibit is part of the modelled state). -/
def dpmsFinishOff (st : OutputState) : OutputState :=
  { st with renderLoopInhibited := true }

/-- `DrmOutput::dpmsFinishOn`: blank the crtc, uninhibit the render loop and
schedule a full repaint (only the uninhibit is part of the modelled state). -/
def dpmsFinishOn (st : OutputState) : OutputState :=
  { st with renderLoopInhibited := false }

/-- The `errorHandler` lambda in `DrmOutput::doAtomicCommit`: free the
request, roll `m_dpmsModePending` back to `m_dpmsMode` (finishing the off
transition if the real mode is not `On`), and clear `setNext` on every plane
in the flip list before clearing the list. -/
def commitErrorHandler (st : OutputState) : OutputState :=
  let st1 :=
    if st.dpmsMode ≠ st.dpmsModePending then
      let st' := { st with dpmsModePending := st.dpmsMode }
      if st.dpmsMode ≠ DpmsMode.On then dpmsFinishOff st' else st'
    else st
  { st1 with
    planeNext := if st1.planeInFlipList then none else st1.planeNext,
    planeInFlipList := false }

/-- `DrmOutput::doAtomicCommit` (drm_output.cpp).  `hwOk` is the result of the
`drmModeAtomicCommit` ioctl (external input); request allocation, property-blob
creation and request population are taken to succeed, since their failure
depends on the kernel, not on the modelled state.  When a modeset is requested
while the pending DPMS mode is not `On`, `atomicReqModesetPopulate(req, false)`
deletes and clears both primary-plane buffer slots before the commit is
issued.  On a successful real commit with the modeset flag, the modeset
request is consumed and `m_dpmsMode` becomes `m_dpmsModePending`. -/
def doAtomicCommit (commitMode : AtomicCommitMode) (hwOk : Bool) (st : OutputState) :
    Bool × OutputState × List CommitEvent :=
  let st1 :=
    if st.modesetRequested ∧ st.dpmsModePending ≠ DpmsMode.On then
      { st with planeCurrent := none, planeNext := none }
    else st
  let flagsModeset := st1.modesetRequested
  let ev :=
    match commitMode with
    | .Test => CommitEvent.atomicTest st1.dpmsModePending
    | .Real => CommitEvent.atomicReal st1.dpmsModePending
  if hwOk then
    if commitMode = .Real ∧ flagsModeset then
      (true, { st1 with modesetRequested := false, dpmsMode := st1.dpmsModePending }, [ev])
    else
      (true, st1, [ev])
  else
    (false, commitErrorHandler st1, [ev])

/-- `DrmOutput::dpmsAtomicOff` (drm_output.cpp): clear the pending-off flag,
drop the staged next buffer, put the primary plane on the flip list, and issue
a test commit followed by the real commit; on success clear the flip list and
finish the off transition. -/
def dpmsAtomicOff (testOk realOk : Bool) (st : OutputState) :
    Bool × OutputState × List CommitEvent :=
  let st1 := { st with atomicOffPending := false, planeNext := none, planeInFlipList := true }
  let test := doAtomicCommit .Test testOk st1
  if test.1 = false then
    (false, test.2.1, test.2.2)
  else
    let real := doAtomicCommit .Real realOk test.2.1
    if real.1 = false then
      (false, real.2.1, test.2.2 ++ real.2.2)
    else
      (true, dpmsFinishOff { real.2.1 with planeInFlipList := false },
        test.2.2 ++ real.2.2)

/-- `DrmOutput::dpmsLegacyApply`: one `drmModeConnectorSetProperty` call; on
failure roll the pending mode back, on success finish the transition and
commit the pending mode. -/
def dpmsLegacyApply (propOk : Bool) (st : OutputState) :
    Bool × OutputState × List CommitEvent :=
  if propOk = false then
    (false, { st with dpmsModePending := st.dpmsMode },
      [CommitEvent.legacySetProperty st.dpmsModePending])
  else
    let st1 := if st.dpmsModePending = DpmsMode.On then dpmsFinishOn st else dpmsFinishOff st
    (true, { st1 with dpmsMode := st1.dpmsModePending },
      [CommitEvent.legacySetProperty st.dpmsModePending])

/-- `DrmOutput::updateDpms` (drm_output.cpp): ignored without a DPMS property
or on a disabled output; a no-op when the target equals the pending mode.
Otherwise the pending mode is stored; in atomic mode a modeset is marked and —
for `Off` — the off-commit is *deferred* behind a pending page flip
(`m_atomicOffPending`), being issued immediately only when no flip is in
flight.  `testOk`/`realOk`/`propOk` are the hardware's answers to whatever
commits this call issues. -/
def updateDpms (mode : DpmsMode) (testOk realOk propOk : Bool) (st : OutputState) :
    OutputState × List CommitEvent :=
  if st.dpmsPropertyPresent = false ∨ st.enabled = false then (st, [])
  else if mode = st.dpmsModePending then (st, [])
  else
    let st1 := { st with dpmsModePending := mode }
    if st1.gpuAtomicModeSetting then
      let st2 := { st1 with modesetRequested := true }
      if mode = DpmsMode.On then
        let st3 :=
          if st2.atomicOffPending then { st2 with atomicOffPending := false } else st2
        (dpmsFinishOn st3, [])
      else
        let st3 := { st2 with atomicOffPending := true }
        if st3.pageFlipPending then (st3, [])
        else
          let r := dpmsAtomicOff testOk realOk st3
          (r.2.1, r.2.2)
    else
      let r := dpmsLegacyApply propOk st1
      (r.2.1, r.2.2)

/-- The buffer-slot promotion in the middle of `DrmOutput::pageFlipped`.
Modelled from the spec for the parts living in `drm_object_crtc.cpp` /
`drm_object_plane.cpp` (not part of this repository snapshot): page-flip
completion "releases the previous buffer's GPU-side resources, promotes
'next' to 'current'"; the flip list is cleared. -/
def pageFlipPromote (st : OutputState) : OutputState :=
  if st.gpuAtomicModeSetting then
    if st.planeInFlipList then
      { st with planeCurrent := st.planeNext, planeNext := none, planeInFlipList := false }
    else st
  else
    match st.crtcNext with
    | some b => { st with crtcCurrent := some b, crtcNext := none }
    | none => st

/-- `DrmOutput::pageFlipped` (drm_output.cpp): mark the flip as complete;
bail out for a deleted output; in atomic buffer-deleting mode a missing next
buffer (manual VT switch) returns early; otherwise promote the buffer slots
and, if a DPMS-off was deferred behind this flip, issue it now via
`dpmsAtomicOff`. -/
def pageFlipped (testOk realOk : Bool) (st : OutputState) :
    OutputState × List CommitEvent :=
  let st1 := { st with pageFlipPending := false }
  if st1.deleted then (st1, [])
  else if st1.gpuDeleteBufferAfterPageFlip ∧ st1.gpuAtomicModeSetting ∧
      st1.planeNext = none then
    (st1, [])
  else
    let st2 := pageFlipPromote st1
    if st2.atomicOffPending then
      let r := dpmsAtomicOff testOk realOk st2
      (r.2.1, r.2.2)
    else (st2, [])

/-- `DrmOutput::presentAtomically` (drm_output.cpp): refuse when the session
is inactive or a page flip is pending; in EGL-streams mode without a pending
modeset only mark the flip; otherwise stage the buffer on the primary plane,
test-commit, and on test failure restore the last-known-good
mode/transform/position/plane-transformation (when a valid snapshot exists)
and report failure; on success re-commit for real, snapshot the state after a
modeset, and mark the flip as pending. -/
def presentAtomically (buffer : ℕ) (testOk realOk : Bool) (st : OutputState) :
    Bool × OutputState × List CommitEvent :=
  if st.sessionActive = false then (false, st, [])
  else if st.pageFlipPending then (false, st, [])
  else if st.gpuUseEglStreams ∧ st.modesetRequested = false then
    (true, { st with pageFlipPending := true }, [])
  else
    let st1 := { st with planeNext := some buffer, planeInFlipList := true }
    let test := doAtomicCommit .Test testOk st1
    if test.1 = false then
      if test.2.1.lastWorkingState.valid then
        (false,
          { test.2.1 with
            mode := test.2.1.lastWorkingState.mode,
            transform := test.2.1.lastWorkingState.transform,
            globalPos := test.2.1.lastWorkingState.globalPos,
            planeTransformation := test.2.1.lastWorkingState.planeTransformations,
            modesetRequested := true },
          test.2.2)
      else (false, test.2.1, test.2.2)
    else
      let wasModeset := test.2.1.modesetRequested
      let real := doAtomicCommit .Real realOk test.2.1
      if real.1 = false then (false, real.2.1, test.2.2 ++ real.2.2)
      else
        let st4 :=
          if wasModeset then
            { real.2.1 with
              lastWorkingState :=
                { valid := true,
                  mode := real.2.1.mode,
                  transform := real.2.1.transform,
                  globalPos := real.2.1.globalPos,
                  planeTransformations := real.2.1.planeTransformation } }
          else real.2.1
        (true, { st4 with pageFlipPending := true }, test.2.2 ++ real.2.2)

/-- `DrmOutput::presentLegacy` (drm_output.cpp): refuse when a buffer is
already staged; when the session is inactive, stage the buffer but report
failure; set the mode first when needed (`needsModeChange` and the ioctl
results are external inputs); on a successful page-flip ioctl stage the buffer
and mark the flip pending. -/
def presentLegacy (buffer : ℕ) (needsModeChange setModeOk flipOk : Bool)
    (st : OutputState) : Bool × OutputState × List CommitEvent :=
  if st.crtcNext ≠ none then (false, st, [])
  else if st.sessionActive = false then (false, { st with crtcNext := some buffer }, [])
  else
    let modesetNeeded := st.crtcCurrent = none ∨ needsModeChange = true
    if modesetNeeded ∧ setModeOk = false then
      (false, st, [CommitEvent.legacyModeset])
    else
      let ev0 := if modesetNeeded then [CommitEvent.legacyModeset] else []
      if flipOk then
        (true, { st with crtcNext := some buffer, pageFlipPending := true },
          ev0 ++ [CommitEvent.legacyPageFlip])
      else (false, st, ev0 ++ [CommitEvent.legacyPageFlip])

/-- `DrmOutput::present` (drm_output.cpp): refuse outright when the pending
DPMS mode is not `On`, else dispatch on atomic mode-setting. -/
def present (buffer : ℕ) (testOk realOk needsModeChange setModeOk flipOk : Bool)
    (st : OutputState) : Bool × OutputState × List CommitEvent :=
  if st.dpmsModePending ≠ DpmsMode.On then (false, st, [])
  else if st.gpuAtomicModeSetting then presentAtomically buffer testOk realOk st
  else presentLegacy buffer needsModeChange setModeOk flipOk st

/-- `DrmOutput::updateMode` (drm_output.cpp): a no-op when the requested mode
is the current one; otherwise store the new mode and mark a modeset as
pending for the next commit cycle.  (The connector mode-list lookup is
collapsed to the chosen mode id.) -/
def updateMode (newMode : ℕ) (st : OutputState) : OutputState :=
  if st.mode = newMode then st
  else { st with mode := newMode, modesetRequested := true }

/-- A failed atomic commit reports failure and leaves the in-memory mode,
transform, global position and last-known-good snapshot untouched (the error
handler only rolls back the pending DPMS mode and the staged plane state). -/
theorem doAtomicCommit_fail (m : AtomicCommitMode) (st : OutputState) :
    (doAtomicCommit m false st).1 = false ∧
      (doAtomicCommit m false st).2.1.mode = st.mode ∧
      (doAtomicCommit m false st).2.1.transform = st.transform ∧
      (doAtomicCommit m false st).2.1.globalPos = st.globalPos ∧
      (doAtomicCommit m false st).2.1.lastWorkingState = st.lastWorkingState := by
  unfold doAtomicCommit commitErrorHandler dpmsFinishOff
  dsimp only
  split_ifs <;> simp_all

/-- Every `doAtomicCommit` call issues exactly one commit ioctl. -/
theorem doAtomicCommit_one_event (m : AtomicCommitMode) (hwOk : Bool) (st : OutputState) :
    ∃ e, (doAtomicCommit m hwOk st).2.2 = [e] := by
  unfold doAtomicCommit
  dsimp only
  split_ifs <;> exact ⟨_, rfl⟩

/-- C4: `present(buffer)` is refused — it returns `false` with the output
state unmodified (so no buffer is staged) and no commit issued — whenever the
pending DPMS mode is not `On`; and on an atomic mode-setting gpu likewise
whenever a page flip is already pending, so a second `present()` before the
first flip completes is rejected, not queued. -/
theorem present_refused (buffer : ℕ)
    (testOk realOk needsModeChange setModeOk flipOk : Bool) (st : OutputState) :
    (st.dpmsModePending ≠ DpmsMode.On →
      present buffer testOk realOk needsModeChange setModeOk flipOk st = (false, st, [])) ∧
      (st.gpuAtomicModeSetting = true → st.pageFlipPending = true →
        present buffer testOk realOk needsModeChange setModeOk flipOk st =
          (false, st, [])) := by
  constructor
  · intro h
    simp [present, h]
  · intro hat hflip
    unfold present presentAtomically presentLegacy
    split_ifs <;> simp_all

/-- Witness for `present_refused` at a concrete state (DPMS pending `Off` for
the first part; flip pending for the second). -/
theorem present_refused_witness :
    (present 7 true true false true true
        ⟨0, 0, (0, 0), 0, none, none, false, false, false, false, .On, .Off,
          ⟨false, 0, 0, (0, 0), 0⟩, true, true, false, true, false, true, true, false,
          none, none⟩ =
      (false,
        ⟨0, 0, (0, 0), 0, none, none, false, false, false, false, .On, .Off,
          ⟨false, 0, 0, (0, 0), 0⟩, true, true, false, true, false, true, true, false,
          none, none⟩, [])) ∧
      (present 7 true true false true true
          ⟨0, 0, (0, 0), 0, some 1, none, false, false, true, false, .On, .On,
            ⟨false, 0, 0, (0, 0), 0⟩, true, true, false, true, false, true, true, false,
            none, none⟩ =
        (false,
          ⟨0, 0, (0, 0), 0, some 1, none, false, false, true, false, .On, .On,
            ⟨false, 0, 0, (0, 0), 0⟩, true, true, false, true, false, true, true, false,
            none, none⟩, [])) :=
  ⟨(present_refused 7 true true false true true _).1 (by decide),
    (present_refused 7 true true false true true _).2 (by decide) (by decide)⟩

/-- C3 (amended): when the atomic test commit issued during `present()` fails
(active session, no pending flip, not the EGL-streams shortcut), `present`
reports failure instead of aborting, and the in-memory mode, transform and
global position are restored from the *last-known-good snapshot* when a valid
one exists; only when no valid snapshot exists do they keep their pre-attempt
values. -/
theorem presentAtomically_test_failure (buffer : ℕ) (realOk : Bool) (st : OutputState)
    (hs : st.sessionActive = true) (hf : st.pageFlipPending = false)
    (he : ¬(st.gpuUseEglStreams = true ∧ st.modesetRequested = false)) :
    (presentAtomically buffer false realOk st).1 = false ∧
      (st.lastWorkingState.valid = true →
        (presentAtomically buffer false realOk st).2.1.mode = st.lastWorkingState.mode ∧
        (presentAtomically buffer false realOk st).2.1.transform =
          st.lastWorkingState.transform ∧
        (presentAtomically buffer false realOk st).2.1.globalPos =
          st.lastWorkingState.globalPos) ∧
      (st.lastWorkingState.valid = false →
        (presentAtomically buffer false realOk st).2.1.mode = st.mode ∧
        (presentAtomically buffer false realOk st).2.1.transform = st.transform ∧
        (presentAtomically buffer false realOk st).2.1.globalPos = st.globalPos) := by
  have hcommit := doAtomicCommit_fail .Test
    { st with planeNext := some buffer, planeInFlipList := true }
  unfold presentAtomically
  rw [if_neg (by simp [hs]), if_neg (by simp [hf]), if_neg he]
  dsimp only
  rw [if_pos hcommit.1]
  have hlast : (doAtomicCommit .Test false
      { st with planeNext := some buffer, planeInFlipList := true }).2.1.lastWorkingState =
      st.lastWorkingState := hcommit.2.2.2.2
  split
  · rename_i hvalid
    refine ⟨rfl, fun _ => ?_, fun hinv => ?_⟩
    · rw [hlast]
      exact ⟨rfl, rfl, rfl⟩
    · rw [hlast] at hvalid
      rw [hvalid] at hinv
      cases hinv
  · rename_i hvalid
    refine ⟨rfl, fun hv => ?_, fun _ => ?_⟩
    · rw [hlast] at hvalid
      rw [hv] at hvalid
      simp at hvalid
    · exact ⟨hcommit.2.1, hcommit.2.2.1, hcommit.2.2.2.1⟩

/-- Base state for the C3 counterexample: an output whose last successful
modeset was to mode 10 (valid snapshot), idle and DPMS-on. -/
def c3State : OutputState :=
  ⟨10, 0, (0, 0), 0, none, some 1, false, false, false, false, .On, .On,
    ⟨true, 10, 0, (0, 0), 0⟩, true, true, false, true, false, true, true, false,
    none, none⟩

/-- C3 counterexample: change the mode to 20 (`updateMode`), then let the
test commit of the next `present` fail.  The claim says the in-memory mode is
rolled back to its value from before the failed `present()` attempt — that
value is 20 — but the code restores the *last-known-good* mode 10 instead, so
the state before the failed `present()` differs from the state after it. -/
theorem present_rollback_not_preattempt :
    (present 2 false false false true true (updateMode 20 c3State)).1 = false ∧
      (updateMode 20 c3State).mode = 20 ∧
      (present 2 false false false true true (updateMode 20 c3State)).2.1.mode = 10 := by
  decide

/-- Witness for `presentAtomically_test_failure` at the concrete
counterexample state. -/
theorem presentAtomically_test_failure_witness :
    (presentAtomically 2 false false (updateMode 20 c3State)).1 = false ∧
      ((updateMode 20 c3State).lastWorkingState.valid = true →
        (presentAtomically 2 false false (updateMode 20 c3State)).2.1.mode =
          (updateMode 20 c3State).lastWorkingState.mode ∧
        (presentAtomically 2 false false (updateMode 20 c3State)).2.1.transform =
          (updateMode 20 c3State).lastWorkingState.transform ∧
        (presentAtomically 2 false false (updateMode 20 c3State)).2.1.globalPos =
          (updateMode 20 c3State).lastWorkingState.globalPos) ∧
      ((updateMode 20 c3State).lastWorkingState.valid = false →
        (presentAtomically 2 false false (updateMode 20 c3State)).2.1.mode =
          (updateMode 20 c3State).mode ∧
        (presentAtomically 2 false false (updateMode 20 c3State)).2.1.transform =
          (updateMode 20 c3State).transform ∧
        (presentAtomically 2 false false (updateMode 20 c3State)).2.1.globalPos =
          (updateMode 20 c3State).globalPos) :=
  presentAtomically_test_failure 2 false (updateMode 20 c3State)
    (by decide) (by decide) (by decide)

/-- The buffer-slot promotion does not touch the deferred-DPMS-off flag. -/
theorem pageFlipPromote_atomicOffPending (st : OutputState) :
    (pageFlipPromote st).atomicOffPending = st.atomicOffPending := by
  unfold pageFlipPromote
  split
  · split <;> rfl
  · split <;> rfl

/-- C5: with a page flip pending on an atomic mode-setting output,
`updateDpms(Off)` issues no commit whatsoever — it only records the off as
pending (`m_atomicOffPending`) — and the deferred `dpmsAtomicOff` is the one
invoked from the page-flip completion handler `pageFlipped`, whose commit
trace is exactly `dpmsAtomicOff`'s and is non-empty.  Hence the DPMS-off
commit is observed only after the pending flip's completion event. -/
theorem updateDpms_off_deferred (testOk realOk propOk testOk' realOk' : Bool)
    (st st' : OutputState)
    (h1 : st.dpmsPropertyPresent = true) (h2 : st.enabled = true)
    (h3 : st.dpmsModePending ≠ DpmsMode.Off)
    (h4 : st.gpuAtomicModeSetting = true) (h5 : st.pageFlipPending = true)
    (h6 : st'.atomicOffPending = true) (h7 : st'.deleted = false)
    (h8 : ¬(st'.gpuDeleteBufferAfterPageFlip = true ∧ st'.gpuAtomicModeSetting = true ∧
        st'.planeNext = none)) :
    updateDpms DpmsMode.Off testOk realOk propOk st =
        ({ st with dpmsModePending := DpmsMode.Off, modesetRequested := true, atomicOffPending := true }, []) ∧
      (pageFlipped testOk' realOk' st').2 =
        (dpmsAtomicOff testOk' realOk'
          (pageFlipPromote { st' with pageFlipPending := false })).2.2 ∧
      (dpmsAtomicOff testOk' realOk'
        (pageFlipPromote { st' with pageFlipPending := false })).2.2 ≠ [] := by
  refine ⟨?_, ?_, ?_⟩
  · unfold updateDpms
    rw [if_neg (by simp [h1, h2]), if_neg (fun h => h3 h.symm)]
    dsimp only
    rw [if_pos h4, if_neg (by decide), if_pos h5]
  · unfold pageFlipped
    rw [if_neg (by simp [h7]), if_neg (by simpa using h8)]
    dsimp only
    rw [if_pos (by rw [pageFlipPromote_atomicOffPending]; exact h6)]
  · unfold dpmsAtomicOff
    dsimp only
    obtain ⟨e, he⟩ := doAtomicCommit_one_event .Test testOk'
      { pageFlipPromote { st' with pageFlipPending := false } with atomicOffPending := false, planeNext := none, planeInFlipList := true }
    split
    · simp [he]
    · split <;> simp [he]

/-- Concrete state for the C5 witness: a DPMS-on atomic output with a page
flip in flight. -/
def c5FlipPending : OutputState :=
  ⟨3, 0, (0, 0), 0, some 5, some 4, true, false, true, false, .On, .On,
    ⟨false, 0, 0, (0, 0), 0⟩, true, true, false, true, false, true, true, false,
    none, none⟩

/-- Concrete state for the C5 witness: the same output at flip completion,
with a DPMS-off deferred behind the flip. -/
def c5OffDeferred : OutputState :=
  ⟨3, 0, (0, 0), 0, some 5, some 4, true, true, false, true, .On, .Off,
    ⟨false, 0, 0, (0, 0), 0⟩, true, true, false, true, false, true, true, false,
    none, none⟩

/-- Witness for `updateDpms_off_deferred` at concrete states. -/
theorem updateDpms_off_deferred_witness :
    updateDpms DpmsMode.Off true true true c5FlipPending =
        ({ c5FlipPending with dpmsModePending := DpmsMode.Off, modesetRequested := true, atomicOffPending := true }, []) ∧
      (pageFlipped true true c5OffDeferred).2 =
        (dpmsAtomicOff true true
          (pageFlipPromote { c5OffDeferred with pageFlipPending := false })).2.2 ∧
      (dpmsAtomicOff true true
        (pageFlipPromote { c5OffDeferred with pageFlipPending := false })).2.2 ≠ [] :=
  updateDpms_off_deferred true true true true true c5FlipPending c5OffDeferred
    (by decide) (by decide) (by decide) (by decide) (by decide) (by decide) (by decide)
    (by decide)

end Drm
